import Mathlib

/-!
# Verification of the gorilla-pkg manifest generation engine

Shallow embedding of `src/gorillapkg.py` (a Windows MSI package builder).
The program runs on Windows and manipulates Windows paths, so the path
functions of the Python standard library are modelled with their Windows
(`ntpath`) semantics, translated from CPython:

* `ntSplitdrive` models `ntpath.splitdrive` on a string whose alternate
  separators have already been replaced (which is how `ntpath.normpath`
  calls it);
* `ntNormPath` models `ntpath.normpath` for `str` input;
* `pyLower` models `str.lower`; the model is exact on ASCII strings (the
  inputs the program manipulates are ASCII paths); `Char.toLower` only
  folds the ASCII range;
* `pyInt` models the integer literal acceptance of Python `int(...)` on
  ASCII strings: optional surrounding ASCII whitespace, an optional sign,
  decimal digits with single underscores allowed between digits;
* `pathlibSuffix` / `pathlibStem` model `pathlib.PurePath.suffix/.stem`;
* `splitOnChar` models `str.split` with a one-character separator.

Strings are handled as `List Char` (`String.data`), which matches Python
string indexing and slicing by code point.
-/

/-! ## Python string primitives -/

/-- Model of `str.lower` (exact on ASCII, which covers the inputs used). -/
def pyLower (l : List Char) : List Char := l.map Char.toLower

/-- Model of `str.split(sep)` for a one-character separator: splits on every
occurrence, keeping empty pieces, and yields `[[]]` on the empty string. -/
def splitOnChar (sep : Char) : List Char → List (List Char)
  | [] => [[]]
  | c :: rest =>
    let r := splitOnChar sep rest
    if c = sep then [] :: r
    else
      match r with
      | [] => [[c]]
      | g :: gs => (c :: g) :: gs

/-- Substring containment, model of the Python expression `needle in hay`. -/
def containsSub (needle : List Char) : List Char → Bool
  | [] => needle.isEmpty
  | c :: rest => List.isPrefixOf needle (c :: rest) || containsSub needle rest

/-- Model of `str.lstrip(os.sep)` on Windows: drop every leading backslash. -/
def stripLeadSeps (l : List Char) : List Char := l.dropWhile (fun c => c = '\\')

/-- Index of the last occurrence of `c`, model of `str.rfind` (as `Option`). -/
def rfindChar (c : Char) (l : List Char) : Option Nat :=
  match l with
  | [] => none
  | a :: rest =>
    match rfindChar c rest with
    | some j => some (j + 1)
    | none => if a = c then some 0 else none

/-! ## Windows path normalization (`ntpath`) -/

/-- Smallest index `j ≥ k` such that `l` has a backslash at `j`, the model of
`str.find(sep, k)` inside `ntpath.splitdrive`. -/
def findSepFrom (l : List Char) (k : Nat) : Option Nat :=
  match (l.drop k).findIdx? (fun c => c = '\\') with
  | some j => some (k + j)
  | none => none

/-- Model of `str.upper` (exact on ASCII). -/
def pyUpper (l : List Char) : List Char := l.map Char.toUpper

/-- Model of `ntpath.splitdrive` (CPython 3.11) on input whose forward
slashes are already replaced by backslashes (as in the call site inside
`ntpath.normpath`): handles `X:` drives, `\\server\share` UNC roots and
`\\?\UNC\server\share` literal UNC roots. -/
def ntSplitdrive (p : List Char) : List Char × List Char :=
  if p.length ≥ 2 then
    if p.take 2 = ['\\', '\\'] then
      let start := if pyUpper (p.take 8) = "\\\\?\\UNC\\".data then 8 else 2
      match findSepFrom p start with
      | none => (p, [])
      | some i =>
        match findSepFrom p (i + 1) with
        | none => (p, [])
        | some i2 => (p.take i2, p.drop i2)
    else if (p.drop 1).take 1 = [':'] then (p.take 2, p.drop 2)
    else ([], p)
  else ([], p)

/-- The component-collapsing loop of `ntpath.normpath`, written with an
accumulator holding the already-processed components in reverse:
empty components and `.` are dropped, `..` cancels the previous component
when that one is not itself `..`, is dropped at the start of a rooted path,
and is kept otherwise. `rootSep` is `prefix.endswith(sep)` of the source. -/
def ntProcessComps (rootSep : Bool) : List (List Char) → List (List Char) → List (List Char)
  | [], acc => acc.reverse
  | c :: rest, acc =>
    if c = [] ∨ c = ['.'] then ntProcessComps rootSep rest acc
    else if c = ['.', '.'] then
      match acc with
      | [] =>
        if rootSep then ntProcessComps rootSep rest []
        else ntProcessComps rootSep rest [c]
      | a :: acc2 =>
        if a = ['.', '.'] then ntProcessComps rootSep rest (c :: a :: acc2)
        else ntProcessComps rootSep rest acc2
    else ntProcessComps rootSep rest (c :: acc)

/-- Model of `sep.join(comps)` with `sep = backslash`. -/
def joinSep : List (List Char) → List Char
  | [] => []
  | [c] => c
  | c :: rest => c ++ '\\' :: joinSep rest

/-- Model of `ntpath.normpath` for `str` input: device and literal path
roots are returned unchanged, forward slashes become backslashes, the drive
is split off, initial backslashes collapse into one root separator, and the
components are collapsed by `ntProcessComps`; an empty relative result is
the one-component path `.` . -/
def ntNormPath (path : List Char) : List Char :=
  if List.isPrefixOf "\\\\.\\".data path ∨ List.isPrefixOf "\\\\?\\".data path then path
  else
    let p := path.map (fun c => if c = '/' then '\\' else c)
    let dr := ntSplitdrive p
    let hasRootSep : Bool := List.isPrefixOf ['\\'] dr.2
    let rest := if hasRootSep then dr.2.dropWhile (fun c => c = '\\') else dr.2
    let comps := ntProcessComps hasRootSep (splitOnChar '\\' rest) []
    let comps := if dr.1 = [] ∧ hasRootSep = false ∧ comps = [] then [['.']] else comps
    dr.1 ++ (if hasRootSep then ['\\'] else []) ++ joinSep comps

/-- The combination `os.path.normpath(s).lower()` used by
`find_standard_directory` on both the install path and each table path. -/
def pyNormLower (s : String) : List Char := pyLower (ntNormPath s.data)

/-! ## Version Encoder (`parse_version`) -/

/-- ASCII whitespace accepted around an integer literal by Python `int`. -/
def isPyWS (c : Char) : Bool :=
  c = ' ' ∨ c = '\t' ∨ c = '\n' ∨ c = '\x0d' ∨ c = '\x0b' ∨ c = '\x0c'

/-- Digit run with optional single underscores between digits, the body of a
Python integer literal past its first digit; returns its decimal value. -/
def pyIntDigits : Nat → List Char → Option Nat
  | acc, [] => some acc
  | acc, c :: rest =>
    if c = '_' then
      match rest with
      | d :: rest2 => if d.isDigit then pyIntDigits (acc * 10 + (d.toNat - 48)) rest2 else none
      | [] => none
    else if c.isDigit then pyIntDigits (acc * 10 + (c.toNat - 48)) rest else none

/-- The whitespace stripping Python `int` performs on both ends. -/
def pyStrip (s : List Char) : List Char :=
  ((s.dropWhile isPyWS).reverse.dropWhile isPyWS).reverse

/-- The unsigned body of a Python integer literal: a first digit, then
digits with single underscores allowed between digits. -/
def pyIntBody : List Char → Option Nat
  | [] => none
  | d :: rest => if d.isDigit then pyIntDigits 0 (d :: rest) else none

/-- A stripped integer literal: an optional sign, then the unsigned body. -/
def pyIntSigned : List Char → Option Int
  | [] => none
  | c :: rest =>
    if c = '+' then (pyIntBody rest).map Int.ofNat
    else if c = '-' then (pyIntBody rest).map (fun n => -(Int.ofNat n))
    else (pyIntBody (c :: rest)).map Int.ofNat

/-- Model of Python `int(s)` on ASCII strings: optional surrounding ASCII
whitespace, an optional sign, then decimal digits with single underscores
allowed between digits; `none` models the `ValueError`. -/
def pyInt (s : List Char) : Option Int := pyIntSigned (pyStrip s)

/-- The `ValueError` message of Python `int` on a bad literal (quoting of the
offending text is elided in the model). -/
def intErrMsg (part : List Char) : String :=
  "invalid literal for int() with base 10: " ++ String.mk part

/-- The second line the source logs on any version error, naming the three
accepted shapes. -/
def versionShapesLine : String :=
  "Expected format: YYYY.MM.DD, X.Y.Z, or X.Y.Z.B"

/-- Python `str(i)` for the rendered triple. -/
def renderTriple (a b c : Int) : String :=
  toString a ++ "." ++ toString b ++ "." ++ toString c

/-- Model of `parse_version` (src/gorillapkg.py lines 72-92). A `ValueError`
is caught and turns into a fatal exit, modelled as `Except.error` carrying
the error text; the run never continues past it. Integer conversions are
performed in source order, and `parts[0][-2:]` is Python slicing, which on
the 4-character first part keeps the last two characters only. -/
def parse_version (version_str : String) : Except String String :=
  let parts := splitOnChar '.' version_str.data
  if parts.length = 3 ∧ (parts.getD 0 []).length = 4 then
    let p0 := parts.getD 0 []
    let last2 := p0.drop (p0.length - 2)
    match pyInt last2 with
    | none => .error (intErrMsg last2)
    | some major =>
      match pyInt (parts.getD 1 []) with
      | none => .error (intErrMsg (parts.getD 1 []))
      | some mi =>
        match pyInt (parts.getD 2 []) with
        | none => .error (intErrMsg (parts.getD 2 []))
        | some bu => .ok (renderTriple major (mi % 256) (bu % 65536))
  else if parts.length = 3 ∨ parts.length = 4 then
    match pyInt (parts.getD 0 []) with
    | none => .error (intErrMsg (parts.getD 0 []))
    | some ma =>
      match pyInt (parts.getD 1 []) with
      | none => .error (intErrMsg (parts.getD 1 []))
      | some mi =>
        match pyInt (parts.getD 2 []) with
        | none => .error (intErrMsg (parts.getD 2 []))
        | some bu =>
          if parts.length = 4 then
            match pyInt (parts.getD 3 []) with
            | none => .error (intErrMsg (parts.getD 3 []))
            | some b3 => .ok (renderTriple (ma % 256) (mi % 256) ((bu % 65536 * 1000 + b3) % 65536))
          else .ok (renderTriple (ma % 256) (mi % 256) (bu % 65536))
  else .error ("Invalid version format: " ++ version_str)

/-! ## Directory Resolver (`find_standard_directory`) -/

/-- The standard-directory table (src/gorillapkg.py lines 94-121), an
insertion-ordered mapping from absolute paths to symbolic root tokens;
`username` models `os.getlogin()`. -/
def get_standard_directories (username : String) : List (String × String) :=
  let u := fun (suffix : String) => "C:\\Users\\" ++ username ++ suffix
  [("C:\\Program Files", "ProgramFilesFolder"),
   ("C:\\Program Files (x86)", "ProgramFiles6432Folder"),
   ("C:\\Program Files\\Common Files", "CommonFilesFolder"),
   ("C:\\Program Files\\Common Files (x86)", "CommonFiles6432Folder"),
   ("C:\\ProgramData", "CommonAppDataFolder"),
   ("C:\\Windows", "WindowsFolder"),
   ("C:\\Windows\\System32", "SystemFolder"),
   ("C:\\Windows\\SysWOW64", "System64Folder"),
   ("C:\\Windows\\Fonts", "FontsFolder"),
   (u "\\AppData\\Local", "LocalAppDataFolder"),
   (u "\\AppData\\Roaming", "AppDataFolder"),
   (u "\\Desktop", "DesktopFolder"),
   (u "\\Documents", "PersonalFolder"),
   (u "\\Favorites", "FavoritesFolder"),
   (u "\\My Pictures", "MyPicturesFolder"),
   (u "\\NetHood", "NetHoodFolder"),
   (u "\\PrintHood", "PrintHoodFolder"),
   (u "\\Recent", "RecentFolder"),
   (u "\\SendTo", "SendToFolder"),
   (u "\\Start Menu", "StartMenuFolder"),
   (u "\\Startup", "StartupFolder"),
   ("C:\\Windows\\System", "System16Folder"),
   ("C:\\Windows\\Temp", "TempFolder"),
   ("C:\\Windows\\System32\\config\\systemprofile\\AppData\\Local", "LocalAppDataFolder")]

/-- The sort `sorted(standard_directories.items(), key = minus len of path)`:
a stable sort by descending length of the raw (unnormalized) table path.
`List.insertionSort` with this relation is stable and sorted by the same
key, hence produces the same list as Python sorted. -/
def sortByLenDesc (table : List (String × String)) : List (String × String) :=
  List.insertionSort (fun a b => b.1.length ≤ a.1.length) table

/-- The scan loop of `find_standard_directory`: the first table entry (in
sorted order) whose normalized lower-cased path is equal to, or a leading
character run of, the normalized lower-cased install path wins; the
remainder is the leftover of the normalized lower-cased install path with
leading separators stripped. -/
def fsdScan (np : List Char) : List (String × String) → Option ((String × String) × List Char)
  | [] => none
  | e :: rest =>
    let nsp := pyNormLower e.1
    if np = nsp then some (e, [])
    else if List.isPrefixOf nsp np then some (e, stripLeadSeps (np.drop nsp.length))
    else fsdScan np rest

/-- Model of `find_standard_directory` (src/gorillapkg.py lines 140-153). -/
def find_standard_directory (install_path : String) (standard_directories : List (String × String)) :
    Option String × String :=
  match fsdScan (pyNormLower install_path) (sortByLenDesc standard_directories) with
  | some (e, rem) => (some e.2, String.mk rem)
  | none => (none, install_path)

/-- The branch of `generate_wix_files` (src/gorillapkg.py lines 311-316)
choosing the root of the directory tree: a truthy resolved token becomes the
`StandardDirectory` id with the remainder materialized below it; otherwise a
synthetic `INSTALLFOLDER` root holds the full literal install path. -/
def installScaffold (install_path : String) (table : List (String × String)) : String × String :=
  match find_standard_directory install_path table with
  | (some tok, rem) => if tok = "" then ("INSTALLFOLDER", install_path) else (tok, rem)
  | (none, _) => ("INSTALLFOLDER", install_path)

/-- An entry matches when its normalized lower-cased path is a leading
character run (possibly all) of the normalized lower-cased install path;
this is the condition under which the scan stops at the entry. -/
def matchesRoot (install_path : String) (e : String × String) : Prop :=
  pyNormLower e.1 <+: pyNormLower install_path

instance (p : String) (e : String × String) : Decidable (matchesRoot p e) :=
  inferInstanceAs (Decidable (pyNormLower e.1 <+: pyNormLower p))

/-! ## Action Scheduler (`get_arch_short`, `add_custom_actions`) -/

/-- Model of `get_arch_short` (src/gorillapkg.py lines 157-167), applied to
the `platform.machine()` string of the host. The `ValueError` it raises is
modelled as `Except.error` carrying the message. -/
def get_arch_short (machine : String) : Except String String :=
  let arch := pyLower machine.data
  if arch = "x86_64".data ∨ arch = "amd64".data then .ok "x64"
  else if arch = "x86".data ∨ arch = "i386".data ∨ arch = "i686".data then .ok "x86"
  else if containsSub "arm".data arch then .ok "arm64"
  else .error ("Unsupported architecture: " ++ String.mk arch)

/-- Model of `pathlib.PurePath.suffix` from the file name: the last dot
starts the suffix only when it is neither the first nor the last character. -/
def pathlibSuffix (name : List Char) : List Char :=
  match rfindChar '.' name with
  | some i => if 0 < i ∧ i < name.length - 1 then name.drop i else []
  | none => []

/-- Model of `pathlib.PurePath.stem` from the file name. -/
def pathlibStem (name : List Char) : List Char :=
  match rfindChar '.' name with
  | some i => if 0 < i ∧ i < name.length - 1 then name.take i else name
  | none => name

/-- What the scheduler loop of `add_custom_actions` (src/gorillapkg.py lines
185-236) does with one directory entry of the scripts directory. -/
inductive ScriptOutcome where
  /-- `.js` suffix and `preinstall` in the lower-cased stem: scheduled. -/
  | scheduledPre
  /-- `.js` suffix, no `preinstall` but `postinstall` in the stem: scheduled. -/
  | scheduledPost
  /-- `.js` suffix but neither keyword: `continue`, no log line is emitted. -/
  | skippedSilent
  /-- any other suffix: the skip notice `is not a supported script type` is logged. -/
  | skippedNotice
deriving DecidableEq

/-- Model of the per-file classification of `add_custom_actions`
(src/gorillapkg.py lines 185-198 and 235-236): the suffix test is
case-insensitive on `.js`, the keyword tests are case-insensitive substring
tests on the stem, `preinstall` checked first. -/
def classify_script (fileName : String) : ScriptOutcome :=
  if pyLower (pathlibSuffix fileName.data) = ".js".data then
    let stem := pyLower (pathlibStem fileName.data)
    if containsSub "preinstall".data stem then .scheduledPre
    else if containsSub "postinstall".data stem then .scheduledPost
    else .skippedSilent
  else .skippedNotice

/-- The scheduling attributes of the `Custom` sequencing element one
scheduled script produces (src/gorillapkg.py lines 189-196 and 226-232). -/
structure CustomScheduleEntry where
  position : String
  anchor : String
  condition : String
deriving DecidableEq

/-- The sequencing element emitted for one classified script file: scheduled
scripts are anchored `After InstallInitialize` (pre) or
`Before InstallFinalize` (post) and both carry `Condition="NOT Installed"`;
skipped files produce no sequencing element. -/
def schedule_custom : ScriptOutcome → Option CustomScheduleEntry
  | .scheduledPre => some ⟨"After", "InstallInitialize", "NOT Installed"⟩
  | .scheduledPost => some ⟨"Before", "InstallFinalize", "NOT Installed"⟩
  | .skippedSilent => none
  | .skippedNotice => none

/-- The sequencing element of one file of the scripts directory. -/
def scheduleOfScript (fileName : String) : Option CustomScheduleEntry :=
  schedule_custom (classify_script fileName)

/-- Model of `add_custom_actions` over the scripts directory listing:
`get_arch_short()` runs before the loop over files, so an unsupported
architecture aborts before any action is scheduled; otherwise each file
contributes its sequencing element (if scheduled). -/
def add_custom_actions (machine : String) (scriptFiles : List String) :
    Except String (List (String × CustomScheduleEntry)) :=
  match get_arch_short machine with
  | .error e => .error e
  | .ok _ =>
    .ok (scriptFiles.filterMap (fun f => (scheduleOfScript f).map (fun entry => (f, entry))))

/-! ## Tree Builder (`generate_directory_id_name`, `get_or_create_directory`) -/

/-- Model of `generate_directory_id_name` (src/gorillapkg.py lines 130-138):
the id replaces spaces by underscores and removes colons and separators,
with a fixed `dir_` tag; the name only removes colons and separators, an
empty name becoming `ROOT`. -/
def generate_directory_id_name (part : String) : String × String :=
  let sanitized := (part.data.map (fun c => if c = ' ' then '_' else c)).filter
    (fun c => c ≠ ':' ∧ c ≠ '\\' ∧ c ≠ '/')
  let dir_id := "dir_" ++ String.mk sanitized
  let dir_name := String.mk (part.data.filter (fun c => c ≠ ':' ∧ c ≠ '\\' ∧ c ≠ '/'))
  (dir_id, if dir_name = "" then "ROOT" else dir_name)

/-- A `Directory` element of the manifest: its `Id`, its `Name` and its
`Directory` children in document order. (`Component` children do not
participate in the `./Directory[@Id=...]` lookup and are tracked apart.) -/
inductive DirTree where
  | node (id name : String) (children : List DirTree)

/-- The `Id` attribute. -/
def DirTree.idOf : DirTree → String
  | .node i _ _ => i

/-- The `Directory` children in document order. -/
def DirTree.childrenOf : DirTree → List DirTree
  | .node _ _ cs => cs

/-- The ids of a sibling list in document order. -/
def childIds (cs : List DirTree) : List String := cs.map DirTree.idOf

/-- One step of `get_or_create_directory`: look for the first child with the
computed id (`current.find` returns the first match in document order);
descend into it in place when found, else append a fresh node at the end
(`etree.SubElement` appends) and descend into that. `go` is the recursive
continuation over the remaining path parts. -/
def insertIntoChildren (go : DirTree → DirTree) (di dn : String) : List DirTree → List DirTree
  | [] => [go (DirTree.node di dn [])]
  | c :: cs => if c.idOf = di then go c :: cs else c :: insertIntoChildren go di dn cs

/-- Model of `get_or_create_directory` (src/gorillapkg.py lines 349-358) on
one relative path given as its segment list (`path.parts`). -/
def insertPath : List String → DirTree → DirTree
  | [], t => t
  | p :: ps, .node i n cs =>
    let d := generate_directory_id_name p
    .node i n (insertIntoChildren (insertPath ps) d.1 d.2 cs)

/-- The directory insertions `add_payload_files` (src/gorillapkg.py lines
330-347) performs at the insertion point: one `get_or_create_directory` call
per walked file, on the segment list of the parent of its relative path. -/
def add_payload_dirs (root : DirTree) (relParents : List (List String)) : DirTree :=
  relParents.foldl (fun t ps => insertPath ps t) root

/-- The sibling-uniqueness invariant: under every node of the tree, no two
children carry the same id. -/
inductive SiblingIdsUnique : DirTree → Prop where
  | node {i n : String} {cs : List DirTree} :
      (childIds cs).Nodup → (∀ c ∈ cs, SiblingIdsUnique c) →
      SiblingIdsUnique (DirTree.node i n cs)

mutual
/-- All ids in the whole tree (the node itself and every descendant). -/
def allIds : DirTree → List String
  | .node i _ cs => i :: allIdsOfList cs
/-- All ids of a forest. -/
def allIdsOfList : List DirTree → List String
  | [] => []
  | c :: cs => allIds c ++ allIdsOfList cs
end

/-! ## Auxiliary definitions for the statements -/

instance {e a : Type} [DecidableEq e] [DecidableEq a] : DecidableEq (Except e a) := fun x y =>
  match x, y with
  | .ok v, .ok w =>
    if h : v = w then isTrue (by rw [h]) else isFalse (by intro hc; cases hc; exact h rfl)
  | .error v, .error w =>
    if h : v = w then isTrue (by rw [h]) else isFalse (by intro hc; cases hc; exact h rfl)
  | .ok _, .error _ => isFalse (by intro hc; cases hc)
  | .error _, .ok _ => isFalse (by intro hc; cases hc)

/-- Decimal value of a digit string (most significant first). -/
def decimalVal (l : List Char) : Nat :=
  l.foldl (fun a c => a * 10 + (c.toNat - 48)) 0

/-- The rendered `"major.minor.build"` string for three numeric fields. -/
def natTriple (a b c : Nat) : String :=
  toString a ++ "." ++ toString b ++ "." ++ toString c

/-- The parts of the version string that the selected branch of
`parse_version` converts with `int`: with 3 parts and a 4-character first
part, only the last two characters of the first part (plus the second and
third parts); otherwise every part. -/
def consultedParts (parts : List (List Char)) : List (List Char) :=
  if parts.length = 3 ∧ (parts.getD 0 []).length = 4 then
    [(parts.getD 0 []).drop ((parts.getD 0 []).length - 2), parts.getD 1 [], parts.getD 2 []]
  else parts

/-- `root` is a whole-component ancestor of `p`: equal to it, or a leading
run that ends at a separator boundary. -/
def componentAncestor (root p : List Char) : Prop :=
  root = p ∨ (root ++ ['\\']) <+: p

instance (root p : List Char) : Decidable (componentAncestor root p) :=
  inferInstanceAs (Decidable (root = p ∨ (root ++ ['\\']) <+: p))

/-- The number of children of the node carrying the given id. -/
def countChildrenWithId (t : DirTree) (di : String) : Nat :=
  (t.childrenOf.filter (fun c => c.idOf = di)).length

/-! ## Lemmas: the version encoder on numeric parts -/

theorem isDigit_not_special {c : Char} (h : c.isDigit = true) :
    isPyWS c = false ∧ c ≠ '+' ∧ c ≠ '-' ∧ c ≠ '_' := by
  refine ⟨?_, ?_, ?_, ?_⟩
  · unfold isPyWS
    apply decide_eq_false
    rintro (rfl | rfl | rfl | rfl | rfl | rfl) <;> exact absurd h (by decide)
  · rintro rfl; exact absurd h (by decide)
  · rintro rfl; exact absurd h (by decide)
  · rintro rfl; exact absurd h (by decide)

theorem pyIntDigits_digits : ∀ (l : List Char) (acc : Nat), (∀ c ∈ l, c.isDigit = true) →
    pyIntDigits acc l = some (l.foldl (fun a c => a * 10 + (c.toNat - 48)) acc)
  | [], _, _ => rfl
  | c :: rest, acc, h => by
    have hc : c.isDigit = true := h c (List.mem_cons_self c rest)
    obtain ⟨-, -, -, hu⟩ := isDigit_not_special hc
    rw [pyIntDigits.eq_def]
    dsimp only
    rw [if_neg hu, if_pos hc, List.foldl_cons]
    exact pyIntDigits_digits rest _ (fun d hd => h d (List.mem_cons_of_mem c hd))

theorem dropWhile_isPyWS_id {l : List Char} (h : ∀ c ∈ l, c.isDigit = true) :
    l.dropWhile isPyWS = l := by
  cases l with
  | nil => rfl
  | cons c rest =>
    have hc := (isDigit_not_special (h c (List.mem_cons_self c rest))).1
    simp [List.dropWhile_cons, hc]

theorem pyStrip_digits {l : List Char} (h : ∀ c ∈ l, c.isDigit = true) :
    pyStrip l = l := by
  unfold pyStrip
  rw [dropWhile_isPyWS_id h, dropWhile_isPyWS_id (fun c hc => h c (List.mem_reverse.mp hc)),
    List.reverse_reverse]

theorem pyInt_digits {l : List Char} (hne : l ≠ []) (h : ∀ c ∈ l, c.isDigit = true) :
    pyInt l = some (Int.ofNat (decimalVal l)) := by
  obtain ⟨c, rest, rfl⟩ := List.exists_cons_of_ne_nil hne
  have hc : c.isDigit = true := h c (List.mem_cons_self c rest)
  obtain ⟨-, hp, hm, -⟩ := isDigit_not_special hc
  unfold pyInt
  rw [pyStrip_digits h]
  simp only [pyIntSigned, if_neg hp, if_neg hm, pyIntBody, if_pos hc]
  rw [pyIntDigits_digits _ _ h]
  rfl

theorem renderTriple_ofNat (a b c : Nat) :
    renderTriple (Int.ofNat a) (Int.ofNat b) (Int.ofNat c) = natTriple a b c := rfl

theorem ofNat_emod_256 (n : Nat) : Int.ofNat n % (256 : Int) = Int.ofNat (n % 256) := by
  simp only [Int.ofNat_eq_natCast]
  omega

theorem ofNat_emod_65536 (n : Nat) : Int.ofNat n % (65536 : Int) = Int.ofNat (n % 65536) := by
  simp only [Int.ofNat_eq_natCast]
  omega

theorem build4_mod (z b : Nat) :
    (Int.ofNat z % 65536 * 1000 + Int.ofNat b) % 65536 = Int.ofNat ((z * 1000 + b) % 65536) := by
  simp only [Int.ofNat_eq_natCast]
  omega

/-- Value of `pyInt` on every position of an all-numeric parts list. -/
theorem pyInt_getD_digits {ps : List (List Char)}
    (hdigits : ∀ p ∈ ps, p ≠ [] ∧ ∀ c ∈ p, c.isDigit = true) {i : Nat} (hi : i < ps.length) :
    pyInt (ps.getD i []) = some (Int.ofNat (decimalVal (ps.getD i []))) := by
  have hmem : ps.getD i [] ∈ ps := by
    rw [List.getD_eq_getElem _ _ hi]; exact List.getElem_mem hi
  exact pyInt_digits (hdigits _ hmem).1 (hdigits _ hmem).2

/-- C2: on version strings whose dot-separated parts are all decimal
numerals and number exactly 3 or 4, `parse_version` returns the rendered
triple: with 3 parts and a 4-digit first part, the major field is the value
of the last two digits of the first part, the minor the second part mod 256,
the build the third part mod 65536; with 3 parts otherwise the major is the
first part mod 256; with 4 parts the build is
(third part times 1000 plus fourth part) mod 65536. -/
theorem parse_version_numeric_parts (v : String)
    (hcount : (splitOnChar '.' v.data).length = 3 ∨ (splitOnChar '.' v.data).length = 4)
    (hdigits : ∀ p ∈ splitOnChar '.' v.data, p ≠ [] ∧ ∀ c ∈ p, c.isDigit = true) :
    parse_version v = Except.ok
      (if (splitOnChar '.' v.data).length = 3 ∧ ((splitOnChar '.' v.data).getD 0 []).length = 4 then
        natTriple (decimalVal (((splitOnChar '.' v.data).getD 0 []).drop 2))
          (decimalVal ((splitOnChar '.' v.data).getD 1 []) % 256)
          (decimalVal ((splitOnChar '.' v.data).getD 2 []) % 65536)
      else if (splitOnChar '.' v.data).length = 3 then
        natTriple (decimalVal ((splitOnChar '.' v.data).getD 0 []) % 256)
          (decimalVal ((splitOnChar '.' v.data).getD 1 []) % 256)
          (decimalVal ((splitOnChar '.' v.data).getD 2 []) % 65536)
      else
        natTriple (decimalVal ((splitOnChar '.' v.data).getD 0 []) % 256)
          (decimalVal ((splitOnChar '.' v.data).getD 1 []) % 256)
          ((decimalVal ((splitOnChar '.' v.data).getD 2 []) * 1000 +
            decimalVal ((splitOnChar '.' v.data).getD 3 [])) % 65536)) := by
  simp only [parse_version]
  set ps := splitOnChar '.' v.data with hps
  by_cases hdate : ps.length = 3 ∧ (ps.getD 0 []).length = 4
  · rw [if_pos hdate, if_pos hdate]
    have h0len : (ps.getD 0 []).length = 4 := hdate.2
    have hlast : pyInt ((ps.getD 0 []).drop ((ps.getD 0 []).length - 2)) =
        some (Int.ofNat (decimalVal ((ps.getD 0 []).drop 2))) := by
      rw [h0len]
      have h0mem : ps.getD 0 [] ∈ ps := by
        rw [List.getD_eq_getElem _ _ (by omega)]; exact List.getElem_mem (by omega)
      refine pyInt_digits ?_ ?_
      · have : ((ps.getD 0 []).drop 2).length = 2 := by
          rw [List.length_drop, h0len]
        intro hnil; rw [hnil] at this; exact absurd this (by decide)
      · intro c hc
        exact (hdigits _ h0mem).2 c (List.drop_subset 2 _ hc)
    rw [hlast, pyInt_getD_digits hdigits (by omega), pyInt_getD_digits hdigits (by omega)]
    dsimp only
    rw [ofNat_emod_256, ofNat_emod_65536, renderTriple_ofNat]
  · rw [if_neg hdate, if_neg hdate, if_pos hcount]
    by_cases h4 : ps.length = 4
    · have h3 : ¬ps.length = 3 := by omega
      rw [if_neg h3]
      rw [pyInt_getD_digits hdigits (by omega), pyInt_getD_digits hdigits (by omega),
        pyInt_getD_digits hdigits (by omega)]
      dsimp only
      rw [if_pos h4, pyInt_getD_digits hdigits (by omega)]
      dsimp only
      rw [ofNat_emod_256, ofNat_emod_256, build4_mod, renderTriple_ofNat]
    · have h3 : ps.length = 3 := by
        rcases hcount with h | h
        · exact h
        · exact absurd h h4
      rw [if_pos h3]
      rw [pyInt_getD_digits hdigits (by omega), pyInt_getD_digits hdigits (by omega),
        pyInt_getD_digits hdigits (by omega)]
      dsimp only
      rw [if_neg h4]
      rw [ofNat_emod_256, ofNat_emod_256, ofNat_emod_65536, renderTriple_ofNat]

/-- Witness for C2 at the concrete input `2024.3.70000` (date-based shape):
major 24, minor 3, build 70000 mod 65536 = 4464. -/
theorem parse_version_numeric_parts_witness :
    parse_version "2024.3.70000" = Except.ok "24.3.4464" := by
  have h := parse_version_numeric_parts "2024.3.70000" (by decide) (by decide)
  rw [h]
  decide

/-- C8 counterexample: `ab12.1.1` has the non-numeric part `ab12` (it is not
an integer literal and contains non-digits), yet `parse_version` accepts the
string and returns the triple `12.1.1`, because the date branch only parses
the last two characters of a 4-character first part. The claim says any
version string with a non-numeric part must fail with a version-format
error. -/
theorem parse_version_nonnumeric_part_accepted :
    parse_version "ab12.1.1" = Except.ok "12.1.1" ∧
    "ab12".data ∈ splitOnChar '.' "ab12.1.1".data ∧
    pyInt "ab12".data = none ∧ ¬(∀ c ∈ "ab12".data, c.isDigit = true) :=
  ⟨rfl, by decide, by decide, by decide⟩

/-- C8 (amended): a version string fails with the fatal version-format error
when it does not split into exactly 3 or 4 dot-separated parts, or when any
part the selected branch actually converts is not a Python integer literal —
in the 3-part case with a 4-character first part only the last two
characters of the first part plus the second and third parts are converted,
otherwise every part; in these cases no triple is ever returned. -/
theorem parse_version_invalid_fails (v : String)
    (h : ¬((splitOnChar '.' v.data).length = 3 ∨ (splitOnChar '.' v.data).length = 4) ∨
      ∃ p ∈ consultedParts (splitOnChar '.' v.data), pyInt p = none) :
    ∃ e, parse_version v = Except.error e := by
  simp only [parse_version]
  set ps := splitOnChar '.' v.data with hps
  by_cases hdate : ps.length = 3 ∧ (ps.getD 0 []).length = 4
  · rw [if_pos hdate]
    rcases h with hbad | ⟨p, hp, hnone⟩
    · exact absurd (Or.inl hdate.1) hbad
    · unfold consultedParts at hp
      rw [if_pos hdate] at hp
      simp only [List.mem_cons, List.not_mem_nil, or_false] at hp
      cases h0 : pyInt ((ps.getD 0 []).drop ((ps.getD 0 []).length - 2)) with
      | none => exact ⟨_, rfl⟩
      | some a =>
        cases h1 : pyInt (ps.getD 1 []) with
        | none => exact ⟨_, rfl⟩
        | some b =>
          cases h2 : pyInt (ps.getD 2 []) with
          | none => exact ⟨_, rfl⟩
          | some c =>
            exfalso
            rcases hp with rfl | rfl | rfl
            · exact Option.noConfusion (h0.symm.trans hnone)
            · exact Option.noConfusion (h1.symm.trans hnone)
            · exact Option.noConfusion (h2.symm.trans hnone)
  · rw [if_neg hdate]
    by_cases hcnt : ps.length = 3 ∨ ps.length = 4
    · rw [if_pos hcnt]
      rcases h with hbad | ⟨p, hp, hnone⟩
      · exact absurd hcnt hbad
      · unfold consultedParts at hp
        rw [if_neg hdate] at hp
        obtain ⟨i, hi, hgd⟩ : ∃ i, i < ps.length ∧ ps.getD i [] = p := by
          obtain ⟨i, hi, hg⟩ := List.getElem_of_mem hp
          exact ⟨i, hi, by rw [List.getD_eq_getElem _ _ hi, hg]⟩
        have hlen4 : ps.length ≤ 4 := by
          rcases hcnt with hc | hc <;> omega
        cases h0 : pyInt (ps.getD 0 []) with
        | none => exact ⟨_, rfl⟩
        | some a =>
          cases h1 : pyInt (ps.getD 1 []) with
          | none => exact ⟨_, rfl⟩
          | some b =>
            cases h2 : pyInt (ps.getD 2 []) with
            | none => exact ⟨_, rfl⟩
            | some c =>
              dsimp only
              by_cases h4 : ps.length = 4
              · rw [if_pos h4]
                cases h3 : pyInt (ps.getD 3 []) with
                | none => exact ⟨_, rfl⟩
                | some d =>
                  exfalso
                  have hi4 : i = 0 ∨ i = 1 ∨ i = 2 ∨ i = 3 := by omega
                  rcases hi4 with rfl | rfl | rfl | rfl
                  · exact Option.noConfusion ((hgd ▸ h0).symm.trans hnone)
                  · exact Option.noConfusion ((hgd ▸ h1).symm.trans hnone)
                  · exact Option.noConfusion ((hgd ▸ h2).symm.trans hnone)
                  · exact Option.noConfusion ((hgd ▸ h3).symm.trans hnone)
              · exfalso
                have h3len : ps.length = 3 := by
                  rcases hcnt with hc | hc
                  · exact hc
                  · exact absurd hc h4
                have hi3 : i = 0 ∨ i = 1 ∨ i = 2 := by omega
                rcases hi3 with rfl | rfl | rfl
                · exact Option.noConfusion ((hgd ▸ h0).symm.trans hnone)
                · exact Option.noConfusion ((hgd ▸ h1).symm.trans hnone)
                · exact Option.noConfusion ((hgd ▸ h2).symm.trans hnone)
    · rw [if_neg hcnt]
      exact ⟨_, rfl⟩

/-- Witness for the amended C8 at the concrete input `1.2` (two parts):
the run fails with a version-format error. -/
theorem parse_version_invalid_fails_witness :
    (¬((splitOnChar '.' "1.2".data).length = 3 ∨ (splitOnChar '.' "1.2".data).length = 4) ∨
      ∃ p ∈ consultedParts (splitOnChar '.' "1.2".data), pyInt p = none) ∧
    ∃ e, parse_version "1.2" = Except.error e :=
  ⟨Or.inl (by decide), parse_version_invalid_fails "1.2" (Or.inl (by decide))⟩

/-! ## Theorems: architecture dispatch and script scheduling -/

/-- C9 counterexample: `armv7l` is the machine name of a 32-bit ARM host —
not one of the three known helper variants (x86-64, x86, ARM64) — yet
`get_arch_short` returns the ARM64 variant instead of failing, because the
third branch is the substring test `arm in arch`. -/
theorem get_arch_short_armv7l_accepted :
    get_arch_short "armv7l" = Except.ok "arm64" ∧
    pyLower "armv7l".data ≠ "arm64".data ∧ pyLower "armv7l".data ≠ "aarch64".data :=
  ⟨rfl, by decide, by decide⟩

/-- C9 (amended): `get_arch_short` returns the 64-bit variant for
x86_64/amd64, the 32-bit variant for x86/i386/i686, the ARM64 variant for
every machine name whose lower-cased form contains the substring `arm`
(including 32-bit ARM hosts such as armv7l), and fails with an
unsupported-architecture error naming the architecture for every other
machine name; in `add_custom_actions` the dispatch runs before the loop
over script files, so the failure precedes any action scheduling. -/
theorem get_arch_short_cases (machine : String) :
    ((pyLower machine.data = "x86_64".data ∨ pyLower machine.data = "amd64".data) →
      get_arch_short machine = Except.ok "x64") ∧
    ((pyLower machine.data = "x86".data ∨ pyLower machine.data = "i386".data ∨
        pyLower machine.data = "i686".data) →
      get_arch_short machine = Except.ok "x86") ∧
    (¬(pyLower machine.data = "x86_64".data ∨ pyLower machine.data = "amd64".data) →
      ¬(pyLower machine.data = "x86".data ∨ pyLower machine.data = "i386".data ∨
          pyLower machine.data = "i686".data) →
      (containsSub "arm".data (pyLower machine.data) = true →
        get_arch_short machine = Except.ok "arm64") ∧
      (containsSub "arm".data (pyLower machine.data) = false →
        get_arch_short machine =
          Except.error ("Unsupported architecture: " ++ String.mk (pyLower machine.data)) ∧
        ∀ files, add_custom_actions machine files =
          Except.error ("Unsupported architecture: " ++ String.mk (pyLower machine.data)))) := by
  refine ⟨?_, ?_, ?_⟩
  · intro h
    unfold get_arch_short
    rw [if_pos h]
  · intro h
    unfold get_arch_short
    have hne : ¬(pyLower machine.data = "x86_64".data ∨ pyLower machine.data = "amd64".data) := by
      rcases h with h | h | h <;> rw [h] <;> decide
    rw [if_neg hne, if_pos h]
  · intro h1 h2
    constructor
    · intro harm
      unfold get_arch_short
      rw [if_neg h1, if_neg h2, if_pos harm]
    · intro harm
      have herr : get_arch_short machine =
          Except.error ("Unsupported architecture: " ++ String.mk (pyLower machine.data)) := by
        unfold get_arch_short
        rw [if_neg h1, if_neg h2, if_neg (by rw [harm]; exact Bool.false_ne_true)]
      refine ⟨herr, fun files => ?_⟩
      unfold add_custom_actions
      rw [herr]

/-- Witness for the amended C9 at the concrete machine name `riscv64`:
no variant matches and the dispatch fails naming the architecture. -/
theorem get_arch_short_cases_witness :
    get_arch_short "riscv64" =
      Except.error ("Unsupported architecture: " ++ String.mk (pyLower "riscv64".data)) :=
  (((get_arch_short_cases "riscv64").2.2 (by decide) (by decide)).2 (by decide)).1

/-- C5 counterexample: `setup.js` has the script extension and contains
neither keyword; the loop hits `continue`, so the file is skipped silently
and produces no notice — the skip notice is only logged for files whose
suffix is not `.js`. The claim says this file is skipped with a notice. -/
theorem classify_setup_js_silent :
    classify_script "setup.js" = ScriptOutcome.skippedSilent ∧
    ScriptOutcome.skippedSilent ≠ ScriptOutcome.skippedNotice ∧
    pyLower (pathlibSuffix "setup.js".data) = ".js".data ∧
    containsSub "preinstall".data (pyLower (pathlibStem "setup.js".data)) = false ∧
    containsSub "postinstall".data (pyLower (pathlibStem "setup.js".data)) = false :=
  ⟨rfl, by decide, by decide, by decide, by decide⟩

/-- C5 (amended): classification is case-insensitive and substring-based on
the base name and applied only to files with the `.js` extension: such a
file whose lower-cased stem contains `preinstall` schedules as a pre-install
hook, one without `preinstall` but containing `postinstall` as a
post-install hook, and one containing neither keyword is skipped silently
(not scheduled, no notice); a file with any other extension is the one that
is skipped with a notice. -/
theorem classify_script_cases (name : String) :
    (pyLower (pathlibSuffix name.data) = ".js".data →
      (containsSub "preinstall".data (pyLower (pathlibStem name.data)) = true →
        classify_script name = ScriptOutcome.scheduledPre) ∧
      (containsSub "preinstall".data (pyLower (pathlibStem name.data)) = false →
        containsSub "postinstall".data (pyLower (pathlibStem name.data)) = true →
        classify_script name = ScriptOutcome.scheduledPost) ∧
      (containsSub "preinstall".data (pyLower (pathlibStem name.data)) = false →
        containsSub "postinstall".data (pyLower (pathlibStem name.data)) = false →
        classify_script name = ScriptOutcome.skippedSilent)) ∧
    (pyLower (pathlibSuffix name.data) ≠ ".js".data →
      classify_script name = ScriptOutcome.skippedNotice) := by
  constructor
  · intro hjs
    refine ⟨?_, ?_, ?_⟩
    · intro hpre
      unfold classify_script
      rw [if_pos hjs, if_pos hpre]
    · intro hpre hpost
      unfold classify_script
      rw [if_pos hjs, if_neg (by rw [hpre]; exact Bool.false_ne_true), if_pos hpost]
    · intro hpre hpost
      unfold classify_script
      rw [if_pos hjs, if_neg (by rw [hpre]; exact Bool.false_ne_true),
        if_neg (by rw [hpost]; exact Bool.false_ne_true)]
  · intro hjs
    unfold classify_script
    rw [if_neg hjs]

/-- Witness for the amended C5 at `PostInstall-setup.js`: case-insensitive
substring classification schedules it as a post-install hook. -/
theorem classify_script_cases_witness :
    classify_script "PostInstall-setup.js" = ScriptOutcome.scheduledPost :=
  ((classify_script_cases "PostInstall-setup.js").1 (by decide)).2.1 (by decide) (by decide)

/-- C6: every scheduled pre-install script is anchored After the
InstallInitialize phase marker and every scheduled post-install script
Before the InstallFinalize phase marker, and every emitted sequencing
element carries the run condition `NOT Installed` (fresh installs only). -/
theorem schedule_custom_anchors (name : String) :
    (classify_script name = ScriptOutcome.scheduledPre →
      scheduleOfScript name = some ⟨"After", "InstallInitialize", "NOT Installed"⟩) ∧
    (classify_script name = ScriptOutcome.scheduledPost →
      scheduleOfScript name = some ⟨"Before", "InstallFinalize", "NOT Installed"⟩) ∧
    (∀ e, scheduleOfScript name = some e → e.condition = "NOT Installed") := by
  refine ⟨?_, ?_, ?_⟩
  · intro h
    unfold scheduleOfScript
    rw [h]
    rfl
  · intro h
    unfold scheduleOfScript
    rw [h]
    rfl
  · intro e he
    unfold scheduleOfScript at he
    cases hc : classify_script name <;> rw [hc] at he <;>
      simp only [schedule_custom] at he
    · cases he
      rfl
    · cases he
      rfl
    · exact Option.noConfusion he
    · exact Option.noConfusion he

/-- Witness for C6 at `postinstall.js`: it schedules Before InstallFinalize
with the fresh-install-only condition. -/
theorem schedule_custom_anchors_witness :
    scheduleOfScript "postinstall.js" = some ⟨"Before", "InstallFinalize", "NOT Installed"⟩ :=
  (schedule_custom_anchors "postinstall.js").2.1 (by decide)

/-! ## Lemmas: the directory resolver scan -/

/-- The winner of the scan is an entry of the scanned list. -/
theorem fsdScan_mem {np : List Char} :
    ∀ {l : List (String × String)} {e : String × String} {rem : List Char},
      fsdScan np l = some (e, rem) → e ∈ l := by
  intro l
  induction l with
  | nil => intro e rem h; exact Option.noConfusion h
  | cons c t ih =>
    intro e rem h
    unfold fsdScan at h
    by_cases h1 : np = pyNormLower c.1
    · rw [if_pos h1] at h
      cases h
      exact List.mem_cons_self c t
    · rw [if_neg h1] at h
      by_cases h2 : List.isPrefixOf (pyNormLower c.1) np = true
      · rw [if_pos h2] at h
        cases h
        exact List.mem_cons_self c t
      · rw [if_neg h2] at h
        exact List.mem_cons_of_mem c (ih h)

/-- What the scan guarantees about its winner: membership, and the two
result shapes of the claim (exact match with empty remainder, or leading
run with the separator-stripped leftover). -/
theorem fsdScan_spec {np : List Char} :
    ∀ {l : List (String × String)} {e : String × String} {rem : List Char},
      fsdScan np l = some (e, rem) →
      (np = pyNormLower e.1 ∧ rem = []) ∨
        (pyNormLower e.1 <+: np ∧ pyNormLower e.1 ≠ np ∧
          rem = stripLeadSeps (np.drop (pyNormLower e.1).length)) := by
  intro l
  induction l with
  | nil => intro e rem h; exact Option.noConfusion h
  | cons c t ih =>
    intro e rem h
    unfold fsdScan at h
    by_cases h1 : np = pyNormLower c.1
    · rw [if_pos h1] at h
      cases h
      exact Or.inl ⟨h1, rfl⟩
    · rw [if_neg h1] at h
      by_cases h2 : List.isPrefixOf (pyNormLower c.1) np = true
      · rw [if_pos h2] at h
        cases h
        exact Or.inr ⟨List.isPrefixOf_iff_prefix.mp h2, fun hx => h1 hx.symm, rfl⟩
      · rw [if_neg h2] at h
        exact ih h

/-- When the scan fails, no scanned entry matches. -/
theorem fsdScan_none {np : List Char} :
    ∀ {l : List (String × String)}, fsdScan np l = none →
      ∀ e ∈ l, ¬(pyNormLower e.1 <+: np) := by
  intro l
  induction l with
  | nil => intro _ e he; exact absurd he (List.not_mem_nil e)
  | cons c t ih =>
    intro h e he
    unfold fsdScan at h
    by_cases h1 : np = pyNormLower c.1
    · rw [if_pos h1] at h; exact Option.noConfusion h
    · rw [if_neg h1] at h
      by_cases h2 : List.isPrefixOf (pyNormLower c.1) np = true
      · rw [if_pos h2] at h; exact Option.noConfusion h
      · rw [if_neg h2] at h
        rcases List.mem_cons.mp he with rfl | hmem
        · intro hc; exact h2 (List.isPrefixOf_iff_prefix.mpr hc)
        · exact ih h e hmem

/-- On a list sorted by descending raw length, the scan winner has maximal
raw length among all matching entries. -/
theorem fsdScan_maximal {np : List Char} :
    ∀ {l : List (String × String)},
      List.Pairwise (fun a b : String × String => b.1.length ≤ a.1.length) l →
      ∀ {e : String × String}, e ∈ l → pyNormLower e.1 <+: np →
      ∃ w rem, fsdScan np l = some (w, rem) ∧ e.1.length ≤ w.1.length := by
  intro l
  induction l with
  | nil => intro _ e he; exact absurd he (List.not_mem_nil e)
  | cons c t ih =>
    intro hp e he hm
    rw [List.pairwise_cons] at hp
    unfold fsdScan
    by_cases h1 : np = pyNormLower c.1
    · rw [if_pos h1]
      refine ⟨c, [], rfl, ?_⟩
      rcases List.mem_cons.mp he with rfl | hmem
      · exact Nat.le_refl _
      · exact hp.1 e hmem
    · rw [if_neg h1]
      by_cases h2 : List.isPrefixOf (pyNormLower c.1) np = true
      · rw [if_pos h2]
        refine ⟨c, _, rfl, ?_⟩
        rcases List.mem_cons.mp he with rfl | hmem
        · exact Nat.le_refl _
        · exact hp.1 e hmem
      · have hec : e ≠ c := by
          rintro rfl
          exact h2 (List.isPrefixOf_iff_prefix.mpr hm)
        rcases List.mem_cons.mp he with rfl | hmem
        · exact absurd rfl hec
        · rw [if_neg h2]
          exact ih hp.2 hmem hm

/-- The sort of the resolver is a permutation of the table. -/
theorem sortByLenDesc_perm (table : List (String × String)) :
    (sortByLenDesc table).Perm table :=
  List.perm_insertionSort _ table

/-- The sort of the resolver is sorted by descending raw path length. -/
theorem sortByLenDesc_pairwise (table : List (String × String)) :
    List.Pairwise (fun a b : String × String => b.1.length ≤ a.1.length)
      (sortByLenDesc table) := by
  haveI : IsTotal (String × String) (fun a b : String × String => b.1.length ≤ a.1.length) :=
    ⟨fun a b => Nat.le_total b.1.length a.1.length⟩
  haveI : IsTrans (String × String) (fun a b : String × String => b.1.length ≤ a.1.length) :=
    ⟨fun _ _ _ hab hbc => Nat.le_trans hbc hab⟩
  exact List.sorted_insertionSort _ table

/-- C1 counterexample: in the table mapping `C:\A\.` to `TOKA` and `C:\AB`
to `TOKB`, both candidates match the install path `C:\AB` after
normalization and case folding, and the first candidates normalized path
`c:\a` is a strict leading run of the seconds `c:\ab`; the claim says the
longer candidates token `TOKB` is returned, but the sort uses the raw
(pre-normalization) string length, `C:\A\.` is raw-longer, and the function
returns `TOKA`. -/
theorem find_standard_directory_shadowed_by_raw_length :
    matchesRoot "C:\\AB" ("C:\\A\\.", "TOKA") ∧
    matchesRoot "C:\\AB" ("C:\\AB", "TOKB") ∧
    pyNormLower "C:\\A\\." <+: pyNormLower "C:\\AB" ∧
    pyNormLower "C:\\A\\." ≠ pyNormLower "C:\\AB" ∧
    find_standard_directory "C:\\AB" [("C:\\A\\.", "TOKA"), ("C:\\AB", "TOKB")] =
      (some "TOKA", "b") ∧
    "TOKA" ≠ "TOKB" :=
  ⟨by decide, by decide, by decide, by decide, by decide, by decide⟩

/-- C1 (amended): candidates are evaluated in order of descending raw
(pre-normalization) path length, so the scan winner has maximal raw length
among the matching entries. Hence when two candidates both match, one
normalized path is a leading run of the other, and the raw path of the
former is also strictly shorter (as holds for every pair of the built-in
table, whose paths normalization leaves unchanged), the winning entry is
never the shorter candidate; and if the two are the only matching entries,
the winner is exactly the longer one, whose token is returned. -/
theorem find_standard_directory_longest_raw (p : String) (table : List (String × String))
    (A B : String × String) (hA : A ∈ table) (hB : B ∈ table)
    (hmA : matchesRoot p A) (hmB : matchesRoot p B)
    (hpre : pyNormLower A.1 <+: pyNormLower B.1) (hlen : A.1.length < B.1.length) :
    ∃ w rem, fsdScan (pyNormLower p) (sortByLenDesc table) = some (w, rem) ∧
      find_standard_directory p table = (some w.2, String.mk rem) ∧
      B.1.length ≤ w.1.length ∧ w ≠ A ∧
      ((∀ e ∈ table, matchesRoot p e → e = A ∨ e = B) → w = B) := by
  have hBs : B ∈ sortByLenDesc table := ((sortByLenDesc_perm table).mem_iff).mpr hB
  obtain ⟨w, rem, hscan, hwlen⟩ := fsdScan_maximal (sortByLenDesc_pairwise table) hBs hmB
  refine ⟨w, rem, hscan, ?_, hwlen, ?_, ?_⟩
  · unfold find_standard_directory
    rw [hscan]
  · intro hwa
    rw [hwa] at hwlen
    omega
  · intro honly
    have hwmem : w ∈ table := ((sortByLenDesc_perm table).mem_iff).mp (fsdScan_mem hscan)
    have hwm : matchesRoot p w := by
      rcases fsdScan_spec hscan with ⟨heq, -⟩ | ⟨hpw, -, -⟩
      · show pyNormLower w.1 <+: pyNormLower p
        rw [← heq]
      · exact hpw
    rcases honly w hwmem hwm with rfl | rfl
    · omega
    · rfl

/-- Witness for the amended C1: with the two matching roots
`C:\Program Files` and `C:\Program Files\Common Files` and an install path
under the longer one, the winner is the longer root and its token `CF` is
returned. -/
theorem find_standard_directory_longest_raw_witness :
    matchesRoot "C:\\Program Files\\Common Files\\x" ("C:\\Program Files", "PF") ∧
    matchesRoot "C:\\Program Files\\Common Files\\x" ("C:\\Program Files\\Common Files", "CF") ∧
    ∃ w rem,
      fsdScan (pyNormLower "C:\\Program Files\\Common Files\\x")
          (sortByLenDesc [("C:\\Program Files", "PF"), ("C:\\Program Files\\Common Files", "CF")]) =
        some (w, rem) ∧
      find_standard_directory "C:\\Program Files\\Common Files\\x"
          [("C:\\Program Files", "PF"), ("C:\\Program Files\\Common Files", "CF")] =
        (some w.2, String.mk rem) ∧
      ("C:\\Program Files\\Common Files", "CF").1.length ≤ w.1.length ∧
      w ≠ ("C:\\Program Files", "PF") ∧
      ((∀ e ∈ [("C:\\Program Files", "PF"), ("C:\\Program Files\\Common Files", "CF")],
          matchesRoot "C:\\Program Files\\Common Files\\x" e →
          e = ("C:\\Program Files", "PF") ∨ e = ("C:\\Program Files\\Common Files", "CF")) →
        w = ("C:\\Program Files\\Common Files", "CF")) :=
  ⟨by decide, by decide,
    find_standard_directory_longest_raw "C:\\Program Files\\Common Files\\x"
      [("C:\\Program Files", "PF"), ("C:\\Program Files\\Common Files", "CF")]
      ("C:\\Program Files", "PF") ("C:\\Program Files\\Common Files", "CF")
      (by decide) (by decide) (by decide) (by decide) (by decide) (by decide)⟩

/-- C7: the resolver result holds exactly one of the two claimed shapes.
Either some table entry wins — with the empty remainder on an exact match,
or the leading-separator-stripped leftover of the lower-cased normalized
install path on a leading-run match — or no entry matches at all, the
result is `(none, original input path)`, and `generate_wix_files` then
roots the tree at the synthetic `INSTALLFOLDER` directory materializing the
full literal install path. -/
theorem find_standard_directory_shape (p : String) (table : List (String × String)) :
    (∃ sp tok, (sp, tok) ∈ table ∧
      ((pyNormLower p = pyNormLower sp ∧ find_standard_directory p table = (some tok, "")) ∨
        (pyNormLower sp <+: pyNormLower p ∧
          find_standard_directory p table =
            (some tok, String.mk (stripLeadSeps ((pyNormLower p).drop (pyNormLower sp).length)))))) ∨
    ((∀ e ∈ table, ¬ matchesRoot p e) ∧ find_standard_directory p table = (none, p) ∧
      installScaffold p table = ("INSTALLFOLDER", p)) := by
  cases hscan : fsdScan (pyNormLower p) (sortByLenDesc table) with
  | none =>
    refine Or.inr ⟨?_, ?_, ?_⟩
    · intro e he hm
      exact fsdScan_none hscan e (((sortByLenDesc_perm table).mem_iff).mpr he) hm
    · unfold find_standard_directory
      rw [hscan]
    · unfold installScaffold find_standard_directory
      rw [hscan]
  | some er =>
    obtain ⟨e, rem⟩ := er
    have hmem : e ∈ table := ((sortByLenDesc_perm table).mem_iff).mp (fsdScan_mem hscan)
    have hfind : find_standard_directory p table = (some e.2, String.mk rem) := by
      unfold find_standard_directory
      rw [hscan]
    refine Or.inl ⟨e.1, e.2, by rwa [Prod.mk.eta], ?_⟩
    rcases fsdScan_spec hscan with ⟨heq, hrem⟩ | ⟨hpw, _hne, hrem⟩
    · exact Or.inl ⟨heq, by rw [hfind, hrem]⟩
    · exact Or.inr ⟨hpw, by rw [hfind, hrem]⟩

/-- C10: matching is a raw character-run test, not a path-component test:
with a known root whose normalized lower-cased path is a leading character
run of the normalized lower-cased install path without being a
whole-component ancestor of it, the root still wins, and the remainder is
the leftover characters of the lower-cased normalized path with leading
separators stripped. -/
theorem find_standard_directory_raw_char_match (p sp tok : String)
    (hpre : pyNormLower sp <+: pyNormLower p)
    (hne : pyNormLower sp ≠ pyNormLower p)
    (_hnc : ¬ componentAncestor (pyNormLower sp) (pyNormLower p)) :
    find_standard_directory p [(sp, tok)] =
      (some tok, String.mk (stripLeadSeps ((pyNormLower p).drop (pyNormLower sp).length))) := by
  have hscan : fsdScan (pyNormLower p) (sortByLenDesc [(sp, tok)]) =
      some ((sp, tok), stripLeadSeps ((pyNormLower p).drop (pyNormLower sp).length)) := by
    show fsdScan (pyNormLower p) [(sp, tok)] = _
    simp only [fsdScan]
    rw [if_neg (fun hx => hne hx.symm), if_pos (List.isPrefixOf_iff_prefix.mpr hpre)]
  unfold find_standard_directory
  rw [hscan]

/-- Witness for C10 at the install path `C:\Program FilesExtra` against the
root `C:\Program Files`: the root is not a whole-component ancestor, yet it
matches, with remainder `extra`. -/
theorem find_standard_directory_raw_char_match_witness :
    (pyNormLower "C:\\Program Files" <+: pyNormLower "C:\\Program FilesExtra") ∧
    pyNormLower "C:\\Program Files" ≠ pyNormLower "C:\\Program FilesExtra" ∧
    ¬ componentAncestor (pyNormLower "C:\\Program Files") (pyNormLower "C:\\Program FilesExtra") ∧
    find_standard_directory "C:\\Program FilesExtra" [("C:\\Program Files", "ProgramFilesFolder")] =
      (some "ProgramFilesFolder",
        String.mk (stripLeadSeps
          ((pyNormLower "C:\\Program FilesExtra").drop (pyNormLower "C:\\Program Files").length))) :=
  ⟨by decide, by decide, by decide,
    find_standard_directory_raw_char_match "C:\\Program FilesExtra" "C:\\Program Files"
      "ProgramFilesFolder" (by decide) (by decide) (by decide)⟩

/-! ## Lemmas: directory tree insertion -/

theorem childIds_cons (c : DirTree) (cs : List DirTree) :
    childIds (c :: cs) = c.idOf :: childIds cs := rfl

/-- Inserting a path never changes the id of the node inserted into. -/
theorem insertPath_idOf (ps : List String) (t : DirTree) : (insertPath ps t).idOf = t.idOf := by
  cases ps with
  | nil => rfl
  | cons p ps => cases t with | node i n cs => rfl

/-- The ids of a sibling list after one insertion step: unchanged when the
computed id was already present, else the new id is appended at the end. -/
theorem childIds_insertIntoChildren (go : DirTree → DirTree)
    (hgo : ∀ t, (go t).idOf = t.idOf) (di dn : String) :
    ∀ cs : List DirTree, childIds (insertIntoChildren go di dn cs) =
      if di ∈ childIds cs then childIds cs else childIds cs ++ [di] := by
  intro cs
  induction cs with
  | nil =>
    simp [insertIntoChildren, childIds, hgo]
    rfl
  | cons c cs ih =>
    by_cases h : c.idOf = di
    · simp only [insertIntoChildren, if_pos h, childIds_cons, hgo c]
      rw [h, if_pos (List.mem_cons_self di _)]
    · simp only [insertIntoChildren, if_neg h, childIds_cons, ih]
      by_cases hm : di ∈ childIds cs
      · rw [if_pos hm, if_pos (List.mem_cons_of_mem _ hm)]
      · rw [if_neg hm,
          if_neg (fun hx => (List.mem_cons.mp hx).elim (fun he => h he.symm) hm)]
        exact (List.cons_append _ _ _).symm

/-- Every member of the updated sibling list is the descended-into image of
an old child, an untouched old child, or the descended-into fresh node. -/
theorem mem_insertIntoChildren {go : DirTree → DirTree} {di dn : String} :
    ∀ {cs : List DirTree} {x : DirTree}, x ∈ insertIntoChildren go di dn cs →
      (∃ c ∈ cs, x = go c) ∨ x ∈ cs ∨ x = go (DirTree.node di dn []) := by
  intro cs
  induction cs with
  | nil =>
    intro x hx
    unfold insertIntoChildren at hx
    exact Or.inr (Or.inr (List.mem_singleton.mp hx))
  | cons c cs ih =>
    intro x hx
    unfold insertIntoChildren at hx
    by_cases h : c.idOf = di
    · rw [if_pos h] at hx
      rcases List.mem_cons.mp hx with rfl | hx
      · exact Or.inl ⟨c, List.mem_cons_self c cs, rfl⟩
      · exact Or.inr (Or.inl (List.mem_cons_of_mem c hx))
    · rw [if_neg h] at hx
      rcases List.mem_cons.mp hx with rfl | hx
      · exact Or.inr (Or.inl (List.mem_cons_self x cs))
      · rcases ih hx with ⟨d, hd, rfl⟩ | hx2 | rfl
        · exact Or.inl ⟨d, List.mem_cons_of_mem c hd, rfl⟩
        · exact Or.inr (Or.inl (List.mem_cons_of_mem c hx2))
        · exact Or.inr (Or.inr rfl)

/-- The empty node used for a fresh directory satisfies the invariant. -/
theorem siblingIdsUnique_leaf (di dn : String) : SiblingIdsUnique (DirTree.node di dn []) :=
  SiblingIdsUnique.node (by simp [childIds]) (by intro c hc; exact absurd hc (List.not_mem_nil c))

/-- Inserting one relative path preserves the sibling-uniqueness invariant:
the lookup-before-create step never produces two siblings with one id. -/
theorem siblingIdsUnique_insertPath : ∀ (ps : List String) (t : DirTree),
    SiblingIdsUnique t → SiblingIdsUnique (insertPath ps t) := by
  intro ps
  induction ps with
  | nil => intro t h; exact h
  | cons p ps ih =>
    intro t h
    cases t with | node i n cs =>
    cases h with | node hnd hall =>
    show SiblingIdsUnique (DirTree.node i n
      (insertIntoChildren (insertPath ps) (generate_directory_id_name p).1
        (generate_directory_id_name p).2 cs))
    constructor
    · rw [childIds_insertIntoChildren _ (insertPath_idOf ps)]
      by_cases hm : (generate_directory_id_name p).1 ∈ childIds cs
      · rwa [if_pos hm]
      · rw [if_neg hm]
        refine List.Nodup.append hnd (List.nodup_singleton _) ?_
        intro a ha hb
        exact hm ((List.mem_singleton.mp hb) ▸ ha)
    · intro x hx
      rcases mem_insertIntoChildren hx with ⟨d, hd, rfl⟩ | hx2 | rfl
      · exact ih d (hall d hd)
      · exact hall x hx2
      · exact ih _ (siblingIdsUnique_leaf _ _)

/-- Folding a whole list of relative-path insertions preserves the
invariant. -/
theorem siblingIdsUnique_add_payload_dirs :
    ∀ (paths : List (List String)) (t : DirTree),
      SiblingIdsUnique t → SiblingIdsUnique (add_payload_dirs t paths) := by
  intro paths
  induction paths with
  | nil => intro t h; exact h
  | cons ps rest ih =>
    intro t h
    exact ih (insertPath ps t) (siblingIdsUnique_insertPath ps t h)

/-- The inserted id is present among the sibling ids afterwards. -/
theorem mem_childIds_insertIntoChildren (go : DirTree → DirTree)
    (hgo : ∀ t, (go t).idOf = t.idOf) (di dn : String) (cs : List DirTree) :
    di ∈ childIds (insertIntoChildren go di dn cs) := by
  rw [childIds_insertIntoChildren go hgo]
  by_cases hm : di ∈ childIds cs
  · rwa [if_pos hm]
  · rw [if_neg hm]
    exact List.mem_append_right _ (List.mem_singleton.mpr rfl)

/-- With pairwise-distinct sibling ids, a present id is carried by exactly
one sibling. -/
theorem filter_idOf_length_one : ∀ (cs : List DirTree) (di : String),
    (childIds cs).Nodup → di ∈ childIds cs →
    (cs.filter (fun c => c.idOf = di)).length = 1 := by
  intro cs
  induction cs with
  | nil => intro di _ h; exact absurd h (List.not_mem_nil di)
  | cons c cs ih =>
    intro di hnd hm
    rw [childIds_cons] at hnd hm
    rw [List.nodup_cons] at hnd
    by_cases h : c.idOf = di
    · have hnone : cs.filter (fun c => c.idOf = di) = [] := by
        rw [List.filter_eq_nil_iff]
        intro a ha
        simp only [decide_eq_true_eq]
        intro hai
        exact hnd.1 (h ▸ hai ▸ List.mem_map_of_mem DirTree.idOf ha)
      rw [List.filter_cons_of_pos (by simp [h]), hnone]
      rfl
    · have hm2 : di ∈ childIds cs := by
        rcases List.mem_cons.mp hm with hx | hx
        · exact absurd hx.symm h
        · exact hx
      rw [List.filter_cons_of_neg (by simp [h])]
      exact ih di hnd.2 hm2

/-- C3 counterexample: a generation run inserting the two payload parents
`a/bin` and `b/bin` under the insertion point produces two distinct
directory nodes both carrying the id `dir_bin` (one under `dir_a`, one
under `dir_b`), so identifiers are not unique across the whole tree — the
lookup in `get_or_create_directory` only consults the children of the
current parent. -/
theorem payload_tree_duplicate_ids_across_parents :
    ¬ (allIds (add_payload_dirs (DirTree.node "INSTALLFOLDER" "INSTALLFOLDER" [])
        [["a", "bin"], ["b", "bin"]])).Nodup := by
  decide

/-- C3 (amended): identifiers are unique per sibling set: in every tree a
generation run builds from the (initially childless) insertion point, no
two children of one node carry the same identifier, where each identifier
is derived from the path segment by the fixed sanitization-and-tag rule of
`generate_directory_id_name`. -/
theorem payload_tree_sibling_ids_unique (paths : List (List String)) :
    SiblingIdsUnique
      (add_payload_dirs (DirTree.node "INSTALLFOLDER" "INSTALLFOLDER" []) paths) :=
  siblingIdsUnique_add_payload_dirs paths _ (siblingIdsUnique_leaf _ _)

/-- C4: insertion deduplicates at the sibling level: starting from any tree
satisfying the sibling-uniqueness invariant, inserting two relative paths
that share their leading segment leaves the invariant intact and produces
exactly one child of the insertion point carrying the shared segments
computed id — the `./Directory[@Id=...]` lookup reuses the existing node
instead of creating a second sibling. -/
theorem tree_insertion_deduplicates (t : DirTree) (h : SiblingIdsUnique t)
    (s : String) (l1 l2 : List String) :
    SiblingIdsUnique (add_payload_dirs t [s :: l1, s :: l2]) ∧
    countChildrenWithId (add_payload_dirs t [s :: l1, s :: l2])
      ((generate_directory_id_name s).1) = 1 := by
  have hfinal : SiblingIdsUnique (add_payload_dirs t [s :: l1, s :: l2]) :=
    siblingIdsUnique_add_payload_dirs _ t h
  refine ⟨hfinal, ?_⟩
  cases t with | node i n cs =>
  have hmem : (generate_directory_id_name s).1 ∈
      childIds ((add_payload_dirs (DirTree.node i n cs) [s :: l1, s :: l2]).childrenOf) := by
    show (generate_directory_id_name s).1 ∈
      childIds (insertIntoChildren (insertPath l2) (generate_directory_id_name s).1
        (generate_directory_id_name s).2
        (insertIntoChildren (insertPath l1) (generate_directory_id_name s).1
          (generate_directory_id_name s).2 cs))
    exact mem_childIds_insertIntoChildren _ (insertPath_idOf l2) _ _ _
  cases hfinal with | node hnd hall =>
  exact filter_idOf_length_one _ _ hnd hmem

/-- Witness for C4: from a childless start node, inserting `shared/x` and
`shared/y` keeps sibling ids unique and yields exactly one `dir_shared`
child. -/
theorem tree_insertion_deduplicates_witness :
    SiblingIdsUnique (DirTree.node "TOP" "TOP" []) ∧
    (SiblingIdsUnique
        (add_payload_dirs (DirTree.node "TOP" "TOP" []) [["shared", "x"], ["shared", "y"]]) ∧
      countChildrenWithId
        (add_payload_dirs (DirTree.node "TOP" "TOP" []) [["shared", "x"], ["shared", "y"]])
        ((generate_directory_id_name "shared").1) = 1) :=
  ⟨siblingIdsUnique_leaf "TOP" "TOP",
    tree_insertion_deduplicates (DirTree.node "TOP" "TOP" []) (siblingIdsUnique_leaf "TOP" "TOP")
      "shared" ["x"] ["y"]⟩

/-- The default configuration resolves against the real table: the install
path `C:\Program Files\PkgName` resolves to the `ProgramFilesFolder` root
with the (lower-cased) remainder `pkgname`. -/
theorem find_standard_directory_default_install :
    find_standard_directory "C:\\Program Files\\PkgName" (get_standard_directories "user") =
      (some "ProgramFilesFolder", "pkgname") := by
  decide
